import Mathlib

/-!
Verification of the Dana recurring-meeting scheduling and fair-rotation engine
(`src/dana/commands/meetings.py`) against its natural-language specification.

The embedding models:
* Python `datetime` values as a day index plus seconds-of-day (`PyDateTime`);
* the `Meeting` dataclass with `__post_init__` repair (`Meeting.ofArgs`);
* the trigger planner `Meeting.trigger` (APScheduler `CronTrigger` / `DateTrigger`
  become the abstract `TriggerSpec`), including the `OverflowError` that
  `time_delta` raises when the reminder time underflows `datetime.min`;
* the rotation selector `Meeting.takes_minutes` parameterised by a draw oracle
  standing for `np.random.choice`;
* the registry commands (`add`, `add_participant`, `remove_participant`,
  `remove`, `pause`) and the scheduler callbacks with their skip policy.

Weights are modelled over `ℚ`; Python exceptions become `Option`/explicit
error results.
-/

namespace Dana

/-- Python `datetime`: a day index (days since some epoch) and the second of
the day.  `datetime(y, m, d)` truncation to midnight keeps the day and zeroes
the seconds. -/
structure PyDateTime where
  day : Int
  sod : Int
  sod_nonneg : 0 ≤ sod
  sod_lt : sod < 86400

/-- POSIX timestamp of a datetime, in seconds. -/
def PyDateTime.timestamp (d : PyDateTime) : Int :=
  d.day * 86400 + d.sod

/-- Truncation to midnight: `datetime(self.start.year, self.start.month, self.start.day)`. -/
def PyDateTime.startOfDay (d : PyDateTime) : PyDateTime :=
  ⟨d.day, 0, le_refl 0, by norm_num⟩

/-- Key list of an ordered (insertion-ordered, Python `dict`) mapping. -/
def keys {α : Type} (l : List (String × α)) : List String :=
  l.map Prod.fst

/-- A meeting as stored in the registry (the `Meeting` dataclass after
`__post_init__` ran).  `participants` and `participants_optional` model the
insertion-ordered dicts mapping display name to directory id; `weight` is the
parallel list of rotation weights; `schedules` entries are
`(week_interval, days, hour, minute)`. -/
structure Meeting where
  name : String
  description : Option String
  participants : List (String × Nat)
  start : PyDateTime
  url : Option String
  end_ : Option PyDateTime
  schedules : List (Int × String × Nat × Nat)
  paused : Bool
  weight : List ℚ
  participants_optional : List (String × Nat)

/-- Raw constructor arguments of the `Meeting` dataclass, before
`__post_init__` runs (`weight = none` models `weight=None`). -/
structure MeetingArgs where
  name : String
  description : Option String
  participants : List (String × Nat)
  start : PyDateTime
  url : Option String
  end_ : Option PyDateTime
  schedules : List (Int × String × Nat × Nat)
  paused : Bool
  weight : Option (List ℚ)
  participants_optional : List (String × Nat)

/-- Meeting construction, i.e. dataclass init plus `__post_init__`.
`none` models a raised exception:
* `weight is None` with no participants raises `ZeroDivisionError` from
  `[1./len(self.participants)] * len(self.participants)`;
* a given nonempty weight list whose sum is 0 (and hence not close to 1)
  raises `ZeroDivisionError` in the renormalisation `[w / sum_w for w in ...]`.
Finally every key of `participants_optional` also present in `participants`
is deleted. -/
def Meeting.ofArgs (a : MeetingArgs) : Option Meeting :=
  let finish : List ℚ → Meeting := fun w =>
    { name := a.name
      description := a.description
      participants := a.participants
      start := a.start
      url := a.url
      end_ := a.end_
      schedules := a.schedules
      paused := a.paused
      weight := w
      participants_optional :=
        a.participants_optional.filter (fun p => ¬ (keys a.participants).contains p.1) }
  match a.weight with
  | none =>
      if a.participants.length = 0 then none
      else some (finish (List.replicate a.participants.length (1 / (a.participants.length : ℚ))))
  | some w =>
      if w.sum = 1 then some (finish w)
      else if w = [] then some (finish [])
      else if w.sum = 0 then none
      else some (finish (w.map (· / w.sum)))

/-- Abstract trigger specification: `DateTrigger(fire)` or
`CronTrigger(day_of_week=days, hour, minute, start_date, end_date)`. -/
inductive TriggerSpec where
  | dateT (fire : Int)
  | cronT (days : String) (hour minute : Nat) (startD : PyDateTime) (endD : Option PyDateTime)

/-- Source `time_delta(time, delta)`: combine the time of day with
`date(1, 1, 1)` (which is `datetime.min`), add the delta and take `.time()`.
Modelled in minutes of the day with the delta in minutes: a negative result
underflows `datetime.min` and raises `OverflowError` (`none`); otherwise the
time of day of the shifted datetime is the result modulo one day. -/
def time_delta (t : Nat) (d : Int) : Option Nat :=
  if (t : Int) + d < 0 then none else some ((((t : Int) + d) % 1440).toNat)

/-- Python `time(hour=hour, minute=minute)` as minutes of the day: raises
`ValueError` (`none`) when a field is out of range. -/
def pyTime (hour minute : Nat) : Option Nat :=
  if hour ≤ 23 ∧ minute ≤ 59 then some (hour * 60 + minute) else none

/-- Trigger construction for the recurring case, one schedule tuple at a time
(`n` is the schedule index).  Per schedule the source first builds
`time(hour=hour, minute=minute)` (raising `ValueError` on out-of-range
fields), then shifts it by `-5` minutes through `time_delta`; on success it
yields the appointment cron job `name.schedule-n` at the schedule's time of
day and the reminder cron job `name.schedule-n.reminder` five minutes
earlier, both bounded by `[start, end]` and carrying the schedule's week
interval. -/
def planSchedules (name : String) (startD : PyDateTime) (endD : Option PyDateTime) :
    Nat → List (Int × String × Nat × Nat) → Option (List (String × TriggerSpec × Int))
  | _, [] => some []
  | n, (wi, days, hour, minute) :: rest => do
    let t ← pyTime hour minute
    let rt ← time_delta t (-5)
    let tail ← planSchedules name startD endD (n + 1) rest
    pure ((name ++ ".schedule-" ++ toString n,
            TriggerSpec.cronT days hour minute startD endD, wi) ::
          (name ++ ".schedule-" ++ toString n ++ ".reminder",
            TriggerSpec.cronT days (rt / 60) (rt % 60) startD endD, wi) :: tail)

/-- Source `Meeting.trigger`: with a nonempty schedule list, one cron pair per
schedule; otherwise the one-shot pair `DateTrigger(start)` under the bare name
and `DateTrigger(start - 5min)` under `name.reminder`, both with week
interval 1. -/
def Meeting.trigger (m : Meeting) : Option (List (String × TriggerSpec × Int)) :=
  if m.schedules.isEmpty then
    some [(m.name, TriggerSpec.dateT m.start.timestamp, 1),
          (m.name ++ ".reminder", TriggerSpec.dateT (m.start.timestamp - 300), 1)]
  else
    planSchedules m.name m.start m.end_ 0 m.schedules

/-- Oracle standing for the randomness of `np.random.choice`: the three row
indices the without-replacement draw picked. -/
structure Draw where
  i0 : Nat
  i1 : Nat
  i2 : Nat

/-- Validity of a 3-element without-replacement draw from the distribution
`w`, mirroring the preconditions `np.random.choice(p, 3, replace=False, p=w)`
enforces (probabilities nonnegative and summing to 1) together with the
semantics of the draw itself (three distinct in-range indices, each carrying
nonzero probability mass). -/
def validDraw (w : List ℚ) (d : Draw) : Bool :=
  w.all (fun x => 0 ≤ x) && decide (w.sum = 1) &&
  decide (d.i0 < w.length) && decide (d.i1 < w.length) && decide (d.i2 < w.length) &&
  d.i0 != d.i1 && d.i0 != d.i2 && d.i1 != d.i2 &&
  decide (0 < w.getD d.i0 0) && decide (0 < w.getD d.i1 0) && decide (0 < w.getD d.i2 0)

/-- Post-selection weight decay of `takes_minutes`: locate the primary by name
(`np.where(p == users[0])[0][0]`, i.e. first index) and divide its weight by
10, likewise the first backup's by 2, then renormalise (`w /= w.sum()`). -/
def decayWeights (p : List String) (w : List ℚ) (u0 u1 : String) : List ℚ :=
  let i0 := p.indexOf u0
  let w1 := w.set i0 (w.getD i0 0 / 10)
  let i1 := p.indexOf u1
  let w2 := w1.set i1 (w1.getD i1 0 / 2)
  w2.map (· / w2.sum)

/-- Source `Meeting.takes_minutes`, parameterised by the draw oracle.  With
fewer than 3 participants `np.random.choice` picks one participant uniformly
(index `d.i0`; an empty participant list raises, hence `none`) and the weights
are untouched.  Otherwise the weighted without-replacement draw picks three
distinct participants and the weights are decayed; `none` stands for the draw
being impossible (or `np.random.choice` raising on an invalid distribution or
a weight list whose length mismatches the participants). -/
def Meeting.takes_minutes (m : Meeting) (d : Draw) : Option (List String × List ℚ) :=
  if m.participants.length < 3 then
    if d.i0 < m.participants.length then
      some (List.replicate 3 ((keys m.participants).getD d.i0 ""), m.weight)
    else none
  else
    if m.weight.length = m.participants.length ∧ validDraw m.weight d = true then
      let p := keys m.participants
      let u0 := p.getD d.i0 ""
      let u1 := p.getD d.i1 ""
      let u2 := p.getD d.i2 ""
      some ([u0, u1, u2], decayWeights p m.weight u0 u1)
    else none

/-- Message payload handed to the transport. -/
structure MsgPayload where
  type : String
  toIds : List Nat
  content : String

/-- Appointment message content (source `Meeting.appointment`, given the
selected minute takers). -/
def Meeting.appointmentMsg (m : Meeting) (users : List String) : MsgPayload :=
  { type := "private"
    toIds := m.participants.map Prod.snd ++ m.participants_optional.map Prod.snd
    content :=
      "**[" ++ m.name ++ "](" ++ m.url.getD "" ++ ")** *starts now*\n\n" ++
      "**" ++ users.getD 0 "" ++ "** was randomly selected to take minutes (then **" ++
      users.getD 1 "" ++ "** or **" ++ users.getD 2 "" ++ "** if unavailable)\n" }

/-- Source `Meeting.appointment`: runs the rotation (mutating the weights)
and builds the payload; `none` when `takes_minutes` raises, in which case the
meeting is untouched (the raise happens before the weight write-back). -/
def Meeting.appointment (m : Meeting) (d : Draw) : Option (Meeting × MsgPayload) :=
  match m.takes_minutes d with
  | none => none
  | some (users, w) => some ({ m with weight := w }, m.appointmentMsg users)

/-- Source `Meeting.reminder` payload. -/
def Meeting.reminderMsg (m : Meeting) : MsgPayload :=
  { type := "private"
    toIds := m.participants.map Prod.snd ++ m.participants_optional.map Prod.snd
    content := "**[" ++ m.name ++ "](" ++ m.url.getD "" ++ ")** *starts in 5 minutes*\n\n" }

/-- Source `MeetingBot._run_trigger_this_week`: seconds between now (plus
`delta`) and the meeting's start date truncated to midnight, floor-divided
into weeks; the trigger runs when the week count is on-cycle.  `Int.fdiv` is
Python's `//` and `Int.emod` is Python's `%` for a positive divisor. -/
def runTriggerThisWeek (m : Meeting) (week_interval : Int) (now : Int) (delta : Int) : Bool :=
  let start_day := m.start.startOfDay
  let dt := now + delta - start_day.timestamp
  let n_weeks := Int.fdiv dt 604800
  Int.emod n_weeks week_interval == 0

/-- Source `MeetingBot._skip`: suppress when the week is off-cycle or today is
a public holiday (`holiday` models `date.today() in public_holidays(year)`). -/
def skip (m : Meeting) (week_interval : Int) (now : Int) (holiday : Bool) : Bool :=
  if ¬ runTriggerThisWeek m week_interval now 0 then true
  else if holiday then true
  else false

/-- The registry: insertion-ordered map from meeting name to meeting
(the `MeetingBot` dict). -/
abbrev Registry : Type := List (String × Meeting)

/-- First value stored under `name`, the Python `self[name]`. -/
def lookup (R : Registry) (name : String) : Option Meeting :=
  match R with
  | [] => none
  | (k, m) :: rest => if k == name then some m else lookup rest name

/-- In-place mutation of the meeting stored under `name`. -/
def setMeeting (R : Registry) (name : String) (m : Meeting) : Registry :=
  R.map (fun p => if p.1 == name then (name, m) else p)

/-- Python `del self[name]`. -/
def delMeeting (R : Registry) (name : String) : Registry :=
  R.filter (fun p => p.1 ≠ name)

/-- Result of one scheduler callback: the registry afterwards, the payloads
handed to the transport, and the number of commits issued. -/
structure CallbackOut where
  registry : Registry
  sent : List MsgPayload
  commits : Nat

/-- Source `MeetingBot._send_reminder`. -/
def sendReminderCb (R : Registry) (m : Meeting) (week_interval now : Int) (holiday : Bool) :
    CallbackOut :=
  if skip m week_interval now holiday then ⟨R, [], 0⟩
  else ⟨R, [m.reminderMsg], 0⟩

/-- Source `MeetingBot._send_appointment`: skip gate, then rotation + send +
commit.  A raise inside `appointment` (empty participant list) sends nothing
and commits nothing. -/
def sendAppointmentCb (R : Registry) (m : Meeting) (week_interval now : Int) (holiday : Bool)
    (d : Draw) : CallbackOut :=
  if skip m week_interval now holiday then ⟨R, [], 0⟩
  else
    match m.appointment d with
    | none => ⟨R, [], 0⟩
    | some (m', msg) => ⟨setMeeting R m.name m', [msg], 1⟩

/-- Directory resolution `MeetingBot._zulip_users(users)`: the directory
members whose full name was requested, as a name-to-id mapping. -/
def zulipUsers (directory : List (String × Nat)) (users : List String) : List (String × Nat) :=
  directory.filter (fun u => users.contains u.1)

/-- Python `dict` assignment `d[k] = v`: replace in place, else append. -/
def dictSet (l : List (String × Nat)) (k : String) (v : Nat) : List (String × Nat) :=
  if (keys l).contains k then l.map (fun p => if p.1 == k then (k, v) else p)
  else l ++ [(k, v)]

/-- Python `dict.update`. -/
def dictUpdate (l news : List (String × Nat)) : List (String × Nat) :=
  news.foldl (fun acc p => dictSet acc p.1 p.2) l

/-- Python `max` over a list, raising on an empty list (callers guard). -/
def pyMax (l : List ℚ) : ℚ :=
  match l with
  | [] => 0
  | h :: t => t.foldl max h

/-- Core of `MeetingBot.add_participant` acting on the stored meeting.  The
no-op guard returns the meeting unchanged when any requested user already
participates.  In the required branch the resolved users are merged into
`participants`, one weight entry equal to the current maximum weight is
appended per net new participant, and the weights are renormalised; `none`
models `max([])` raising on an empty weight list, a zero weight sum raising
`ZeroDivisionError`, or the final length assertion failing. -/
def Meeting.addParticipantCore (m : Meeting) (directory : List (String × Nat))
    (users : List String) (optional : Bool) : Option Meeting :=
  if users.any (fun u =>
      (keys m.participants).contains u || (keys m.participants_optional).contains u) then
    some m
  else if optional = false then
    if m.weight = [] then none
    else
      let parts := dictUpdate m.participants (zulipUsers directory users)
      let w := m.weight ++ List.replicate (parts.length - m.weight.length) (pyMax m.weight)
      if w.sum = 0 then none
      else
        let w' := w.map (· / w.sum)
        if w'.length = parts.length then some { m with participants := parts, weight := w' }
        else none
  else
    some { m with participants_optional :=
            dictUpdate m.participants_optional (zulipUsers directory users) }

/-- One step of the removal loop of `MeetingBot.remove_participant`: pop the
user's entry and the weight at its position, or skip an unknown user. -/
def removeOne (pw : List (String × Nat) × List ℚ) (user : String) :
    List (String × Nat) × List ℚ :=
  if (keys pw.1).contains user then
    let idx := (keys pw.1).indexOf user
    (pw.1.eraseIdx idx, pw.2.eraseIdx idx)
  else pw

/-- Core of `MeetingBot.remove_participant`: drop every matching required
participant with its weight entry, then renormalise.  `none` models the
`ZeroDivisionError` when the remaining weights are nonempty and sum to 0, or
the final length assertion failing; removing every participant leaves empty
lists (the empty comprehension never divides). -/
def Meeting.removeParticipantCore (m : Meeting) (users : List String) : Option Meeting :=
  let pw := users.foldl removeOne (m.participants, m.weight)
  if pw.2 ≠ [] ∧ pw.2.sum = 0 then none
  else
    let w' := pw.2.map (· / pw.2.sum)
    if w'.length = pw.1.length then some { m with participants := pw.1, weight := w' }
    else none

/-- The named registry commands wrapping the cores (`ensure_name` turns an
unknown name into a message with no state change, modelled as the unchanged
registry). -/
def addParticipantCmd (R : Registry) (directory : List (String × Nat)) (name : String)
    (users : List String) (optional : Bool) : Option Registry :=
  match lookup R name with
  | none => some R
  | some m =>
      match m.addParticipantCore directory users optional with
      | none => none
      | some m' => some (setMeeting R name m')

/-- Registry command `remove_participant`. -/
def removeParticipantCmd (R : Registry) (name : String) (users : List String) :
    Option Registry :=
  match lookup R name with
  | none => some R
  | some m =>
      match m.removeParticipantCore users with
      | none => none
      | some m' => some (setMeeting R name m')

/-- Result kind of a command at the dispatch boundary: a normal return, the
already-exists warning, or an exception stringified by `return_exc`. -/
inductive CmdResult where
  | ok
  | warning
  | error
deriving DecidableEq

/-- Arguments `MeetingBot.execute` passes to `MeetingBot.add` (never a weight,
never a paused flag; the dataclass defaults apply). -/
structure AddArgs where
  name : String
  description : Option String
  participants : List (String × Nat)
  start : PyDateTime
  url : Option String
  end_ : Option PyDateTime
  schedules : List (Int × String × Nat × Nat)
  participants_optional : List (String × Nat)

/-- Dataclass construction arguments for an `add` command. -/
def AddArgs.toMeetingArgs (a : AddArgs) : MeetingArgs :=
  { name := a.name
    description := a.description
    participants := a.participants
    start := a.start
    url := a.url
    end_ := a.end_
    schedules := a.schedules
    paused := false
    weight := none
    participants_optional := a.participants_optional }

/-- Outcome of an `add` command: registry afterwards, job ids armed, whether a
commit was issued, and the result kind. -/
structure AddOutcome where
  registry : Registry
  jobs : List String
  committed : Bool
  result : CmdResult

/-- Source `MeetingBot.add`: construct the meeting first (a raise aborts with
no state change), then return the warning when the name collides, otherwise
derive the triggers (a raise in the planner arms nothing and stores nothing),
arm one job per trigger, store and commit. -/
def addCmd (R : Registry) (a : AddArgs) : AddOutcome :=
  match Meeting.ofArgs a.toMeetingArgs with
  | none => ⟨R, [], false, CmdResult.error⟩
  | some m =>
      if (keys R).contains m.name then ⟨R, [], false, CmdResult.warning⟩
      else
        match m.trigger with
        | none => ⟨R, [], false, CmdResult.error⟩
        | some trigs => ⟨R ++ [(m.name, m)], trigs.map Prod.fst, true, CmdResult.ok⟩

/-- Python `str.startswith`. -/
def startswith (pre s : String) : Bool :=
  pre.data.isPrefixOf s.data

/-- Jobs cancelled by `MeetingBot._remove_job(meeting)` out of the armed job
ids `S`: every job whose id starts with the meeting's name. -/
def removeJobCancels (name : String) (S : List String) : List String :=
  S.filter (fun j => startswith name j)

/-- Armed job ids remaining after `MeetingBot._remove_job(meeting)`. -/
def removeJobRemains (name : String) (S : List String) : List String :=
  S.filter (fun j => ¬ startswith name j)

/-- APScheduler `scheduler.remove_job(job_id)`: drop the job with exactly that
id, raising `JobLookupError` (`none`) when no such job is armed. -/
def schedRemoveJob (job_id : String) (S : List String) : Option (List String) :=
  if S.contains job_id then some (S.erase job_id) else none

/-- Source `MeetingBot.remove`: unknown names get a message with no change;
otherwise `scheduler.remove_job(name)` runs first — when it raises, the
exception aborts the command before the meeting is deleted; on success the
meeting is deleted and the registry committed. -/
def removeCmd (R : Registry) (S : List String) (name : String) :
    Registry × List String × CmdResult :=
  if ¬ (keys R).contains name then (R, S, CmdResult.ok)
  else
    match schedRemoveJob name S with
    | none => (R, S, CmdResult.error)
    | some S' => (delMeeting R name, S', CmdResult.ok)

/-- Source `MeetingBot.pause`: flip `paused` and cancel via the prefix match
of `_remove_job` (already-paused meetings get a message with no change). -/
def pauseCmd (R : Registry) (S : List String) (name : String) :
    Registry × List String × CmdResult :=
  match lookup R name with
  | none => (R, S, CmdResult.ok)
  | some m =>
      if m.paused then (R, S, CmdResult.ok)
      else (setMeeting R name { m with paused := true }, removeJobRemains m.name S, CmdResult.ok)

/-- The mutating operations of the command surface relevant to the weight
invariant, plus the weight decay performed by an appointment firing. -/
inductive Op where
  | add (a : AddArgs)
  | addPart (directory : List (String × Nat)) (name : String) (users : List String)
      (optional : Bool)
  | removePart (name : String) (users : List String)
  | fireAppointment (name : String) (week_interval now : Int) (holiday : Bool) (d : Draw)

/-- Apply one mutating operation to the registry; `none` models the operation
raising. -/
def applyOp (R : Registry) : Op → Option Registry
  | Op.add a => some (addCmd R a).registry
  | Op.addPart directory name users optional => addParticipantCmd R directory name users optional
  | Op.removePart name users => removeParticipantCmd R name users
  | Op.fireAppointment name wi now holiday d =>
      match lookup R name with
      | none => some R
      | some m => some (sendAppointmentCb R m wi now holiday d).registry

/-- The data-model invariant `len(weight) == len(participants)` for every
stored meeting. -/
def WeightInvariant (R : Registry) : Prop :=
  ∀ p ∈ R, (p : String × Meeting).2.weight.length = p.2.participants.length

instance : DecidablePred WeightInvariant := fun R =>
  inferInstanceAs (Decidable (∀ p ∈ R, _))

/-! ## Shared lemmas and concrete sample data -/

/-- Example start time: day 0 at 10:00. -/
def exStart : PyDateTime := ⟨0, 36000, by norm_num, by norm_num⟩

/-- Example recurring meeting with three required participants. -/
def exMeeting : Meeting :=
  { name := "Sync"
    description := none
    participants := [("A", 1), ("B", 2), ("C", 3)]
    start := exStart
    url := none
    end_ := none
    schedules := [(1, "mon", 10, 0)]
    paused := false
    weight := [1/2, 1/4, 1/4]
    participants_optional := [] }

/-- Construction arguments whose weight data does not raise: either the
weight is seeded (needing a nonempty participant list) or the supplied
weight list renormalises without dividing by zero.  Every state persisted by
`commit` satisfies this (weights of stored meetings sum to 1). -/
def WeightArgsOK (a : MeetingArgs) : Prop :=
  match a.weight with
  | none => a.participants ≠ []
  | some w => w = [] ∨ w.sum ≠ 0

/-- Example construction input carrying participant `A` in both the required
and the optional mapping. -/
def exOverlapArgs : MeetingArgs :=
  { name := "Sync"
    description := none
    participants := [("A", 1), ("B", 2)]
    start := exStart
    url := none
    end_ := none
    schedules := []
    paused := false
    weight := none
    participants_optional := [("A", 9), ("C", 3)] }

/-- Example registry already holding the meeting named `Sync`. -/
def exRegistry : Registry := [("Sync", exMeeting)]

/-- Colliding `add` arguments whose participant list resolved to nothing:
constructing the Meeting raises `ZeroDivisionError` before the name check. -/
def exCollidingEmptyAdd : AddArgs :=
  { name := "Sync"
    description := none
    participants := []
    start := exStart
    url := none
    end_ := none
    schedules := []
    participants_optional := [] }

/-- Colliding `add` arguments that construct fine. -/
def exCollidingAdd : AddArgs :=
  { name := "Sync"
    description := none
    participants := [("D", 4)]
    start := exStart
    url := none
    end_ := none
    schedules := []
    participants_optional := [] }

/-- Weight vector with the primary's entry (index `i0`) divided by 10 and the
first backup's entry (index `i1`) divided by 2, all other entries unchanged. -/
def decayedVector (w : List ℚ) (i0 i1 : Nat) : List ℚ :=
  (w.set i0 (w.getD i0 0 / 10)).set i1 (w.getD i1 0 / 2)

/-- Example meeting after participant `A` was removed and the weights
renormalised. -/
def exMeetingShrunk : Meeting :=
  { exMeeting with participants := [("B", 2), ("C", 3)], weight := [1/2, 1/2] }

/-- Example meeting with a single required participant. -/
def exSolo : Meeting :=
  { exMeeting with name := "Solo", participants := [("A", 1)], weight := [1] }

/-- Trigger plan exactly as the specification words it (spec-side definition
for the refinement comparison): per schedule tuple, an appointment cron
trigger at the given weekday set and time of day bounded by `[start, end]`,
and a paired reminder cron trigger at the time of day minus 5 minutes on the
same weekday set and bounds, both carrying the week interval, with
identifiers derived from the meeting name, schedule index and a reminder
marker. -/
def specSchedulePlan (name : String) (startD : PyDateTime) (endD : Option PyDateTime) :
    Nat → List (Int × String × Nat × Nat) → List (String × TriggerSpec × Int)
  | _, [] => []
  | n, (wi, days, hour, minute) :: rest =>
      (name ++ ".schedule-" ++ toString n,
        TriggerSpec.cronT days hour minute startD endD, wi) ::
      (name ++ ".schedule-" ++ toString n ++ ".reminder",
        TriggerSpec.cronT days ((hour * 60 + minute - 5) / 60) ((hour * 60 + minute - 5) % 60)
          startD endD, wi) ::
      specSchedulePlan name startD endD (n + 1) rest

/-- Example meeting with a schedule at midnight: computing the reminder time
`00:00 - 5min` underflows `datetime.min` and the planner raises. -/
def exMidnight : Meeting := { exMeeting with schedules := [(1, "mon", 0, 0)] }

/-- Example recurring meeting named `A` (jobs `A.schedule-0` and
`A.schedule-0.reminder`). -/
def exRecA : Meeting := { exMeeting with name := "A" }

/-! ## Theorems -/

/-- Renormalising a list divides its sum. -/
theorem sum_map_div (l : List ℚ) (s : ℚ) : (l.map (· / s)).sum = l.sum / s := by
  induction l with
  | nil => simp
  | cons h t ih => simp [ih, add_div]

/-- C4: the week-interval gate lets a due occurrence fire exactly when the
floored number of elapsed weeks since the meeting's start date truncated to
midnight is on-cycle; in particular with `week_interval = 2` and a fixed
start, a firing due in elapsed week 0 fires, week 1 is suppressed, and week 2
fires. -/
theorem week_interval_gate_iff :
    (∀ (m : Meeting) (wi now : Int),
      runTriggerThisWeek m wi now 0 = true ↔
        ((now - m.start.startOfDay.timestamp).fdiv 604800).emod wi = 0) ∧
    runTriggerThisWeek exMeeting 2 36000 0 = true ∧
    runTriggerThisWeek exMeeting 2 (36000 + 604800) 0 = false ∧
    runTriggerThisWeek exMeeting 2 (36000 + 2 * 604800) 0 = true := by
  refine ⟨fun m wi now => ?_, by decide, by decide, by decide⟩
  simp [runTriggerThisWeek]

/-- C5: whenever the skip policy suppresses a due firing (off-cycle week or
public holiday), both callbacks are silent no-ops: no payload goes to the
transport, the registry (including the meeting's weights) is unchanged, and
no commit is issued. -/
theorem skip_suppresses_everything (R : Registry) (m : Meeting) (wi now : Int)
    (holiday : Bool) (d : Draw)
    (h : runTriggerThisWeek m wi now 0 = false ∨ holiday = true) :
    sendAppointmentCb R m wi now holiday d = ⟨R, [], 0⟩ ∧
    sendReminderCb R m wi now holiday = ⟨R, [], 0⟩ := by
  have hs : skip m wi now holiday = true := by
    rcases h with h | h <;> simp [skip, h]
  exact ⟨by simp [sendAppointmentCb, hs], by simp [sendReminderCb, hs]⟩

/-- Witness for C5: in elapsed week 1 of a biweekly schedule the gate is
off-cycle and both callbacks leave everything untouched. -/
theorem skip_suppresses_everything_witness :
    runTriggerThisWeek exMeeting 2 640800 0 = false ∧
    sendAppointmentCb [("Sync", exMeeting)] exMeeting 2 640800 false ⟨0, 1, 2⟩ =
      ⟨[("Sync", exMeeting)], [], 0⟩ ∧
    sendReminderCb [("Sync", exMeeting)] exMeeting 2 640800 false =
      ⟨[("Sync", exMeeting)], [], 0⟩ :=
  ⟨by decide,
   (skip_suppresses_everything [("Sync", exMeeting)] exMeeting 2 640800 false ⟨0, 1, 2⟩
      (Or.inl (by decide))).1,
   (skip_suppresses_everything [("Sync", exMeeting)] exMeeting 2 640800 false ⟨0, 1, 2⟩
      (Or.inl (by decide))).2⟩

/-- Construction under `WeightArgsOK` never raises. -/
theorem ofArgs_isSome_of_ok (a : MeetingArgs) (hok : WeightArgsOK a) :
    ∃ m, Meeting.ofArgs a = some m := by
  unfold Meeting.ofArgs
  unfold WeightArgsOK at hok
  cases hw : a.weight with
  | none =>
      rw [hw] at hok
      have h0 : ¬ a.participants.length = 0 := by
        simpa [List.length_eq_zero] using hok
      simp [h0]
  | some w =>
      rw [hw] at hok
      by_cases h1 : w.sum = 1
      · simp [h1]
      · by_cases h2 : w = []
        · simp [h1, h2]
        · have h3 : ¬ w.sum = 0 := by tauto
          simp [h1, h2, h3]

/-- Fields of a successfully constructed meeting. -/
theorem ofArgs_fields (a : MeetingArgs) (m : Meeting) (h : Meeting.ofArgs a = some m) :
    m.name = a.name ∧ m.participants = a.participants ∧ m.schedules = a.schedules ∧
    m.participants_optional =
      a.participants_optional.filter (fun p => ¬ (keys a.participants).contains p.1) := by
  unfold Meeting.ofArgs at h
  cases hw : a.weight with
  | none =>
      rw [hw] at h
      by_cases h0 : a.participants.length = 0
      · simp [h0] at h
      · simp only [h0, if_false] at h
        cases h
        exact ⟨rfl, rfl, rfl, rfl⟩
  | some w =>
      rw [hw] at h
      by_cases h1 : w.sum = 1
      · simp only [h1, if_true] at h
        cases h
        exact ⟨rfl, rfl, rfl, rfl⟩
      · by_cases h2 : w = []
        · simp only [h1, h2, if_false, if_true] at h
          cases h
          exact ⟨rfl, rfl, rfl, rfl⟩
        · by_cases h3 : w.sum = 0
          · simp [h1, h2, h3] at h
          · simp only [h1, h2, h3, if_false] at h
            cases h
            exact ⟨rfl, rfl, rfl, rfl⟩

/-- C9: constructing (or rehydrating) a Meeting with a key present in both
`participants` and `participants_optional` succeeds; the key is silently
deleted from `participants_optional` (which becomes the optional list with
every required key filtered out) and the required participants are untouched —
repair on load rather than a validation error. -/
theorem post_init_repairs_overlap (a : MeetingArgs) (k : String)
    (hok : WeightArgsOK a)
    (hreq : k ∈ keys a.participants) (hopt : k ∈ keys a.participants_optional) :
    ∃ m, Meeting.ofArgs a = some m ∧
      m.participants = a.participants ∧
      m.participants_optional =
        a.participants_optional.filter (fun p => ¬ (keys a.participants).contains p.1) ∧
      k ∉ keys m.participants_optional := by
  obtain ⟨m, hm⟩ := ofArgs_isSome_of_ok a hok
  obtain ⟨-, hparts, -, hoptfields⟩ := ofArgs_fields a m hm
  refine ⟨m, hm, hparts, hoptfields, ?_⟩
  rw [hoptfields]
  intro hk
  rw [keys, List.mem_map] at hk
  obtain ⟨p, hp, hpk⟩ := hk
  rw [List.mem_filter] at hp
  have hc : (keys a.participants).contains p.1 = true := List.elem_iff.mpr (hpk ▸ hreq)
  have h2 := hp.2
  simp only [decide_eq_true_eq] at h2
  exact h2 hc

/-- Witness for C9: participant `A` is required and also listed optional; the
construction succeeds and drops `A` from the optional mapping. -/
theorem post_init_repairs_overlap_witness :
    WeightArgsOK exOverlapArgs ∧ "A" ∈ keys exOverlapArgs.participants ∧
    "A" ∈ keys exOverlapArgs.participants_optional ∧
    ∃ m, Meeting.ofArgs exOverlapArgs = some m ∧
      m.participants = exOverlapArgs.participants ∧
      m.participants_optional =
        exOverlapArgs.participants_optional.filter
          (fun p => ¬ (keys exOverlapArgs.participants).contains p.1) ∧
      "A" ∉ keys m.participants_optional :=
  ⟨by simp [WeightArgsOK, exOverlapArgs], by decide, by decide,
   post_init_repairs_overlap exOverlapArgs "A" (by simp [WeightArgsOK, exOverlapArgs])
     (by decide) (by decide)⟩

/-- Counterexample to C8: an `add` whose name is already present but whose
participant list is empty raises while constructing the Meeting (the
construction runs before the collision check), so the command returns a
stringified traceback, not the warning. -/
theorem add_existing_name_counterexample :
    (keys exRegistry).contains exCollidingEmptyAdd.name = true ∧
    (addCmd exRegistry exCollidingEmptyAdd).result ≠ CmdResult.warning ∧
    (addCmd exRegistry exCollidingEmptyAdd).result = CmdResult.error := by
  refine ⟨by decide, ?_, ?_⟩ <;> simp [addCmd, Meeting.ofArgs, AddArgs.toMeetingArgs,
    exCollidingEmptyAdd]

/-- C8 as amended: an `add` whose meeting name is already present never
changes the registry, never arms a job and never commits; it returns the
already-exists warning whenever the Meeting construction from its arguments
succeeds (when the construction raises — e.g. no participant resolved — the
command returns an error traceback instead, still with no state change). -/
theorem add_existing_name_no_change (R : Registry) (a : AddArgs)
    (hpresent : (keys R).contains a.name = true) :
    (addCmd R a).registry = R ∧ (addCmd R a).jobs = [] ∧
    (addCmd R a).committed = false ∧
    (∀ m, Meeting.ofArgs a.toMeetingArgs = some m →
      (addCmd R a).result = CmdResult.warning) := by
  cases hof : Meeting.ofArgs a.toMeetingArgs with
  | none => refine ⟨?_, ?_, ?_, ?_⟩ <;> simp [addCmd, hof]
  | some m =>
      have hname : m.name = a.name := (ofArgs_fields _ m hof).1
      have hc : (keys R).contains m.name = true := by rw [hname]; exact hpresent
      have hmem : m.name ∈ keys R := List.elem_iff.mp hc
      refine ⟨?_, ?_, ?_, ?_⟩ <;> simp [addCmd, hof, hc, hmem]

/-- Witness for the amended C8: a colliding `add` with one resolved
participant returns the warning leaving registry, jobs and commit untouched. -/
theorem add_existing_name_no_change_witness :
    (keys exRegistry).contains exCollidingAdd.name = true ∧
    (addCmd exRegistry exCollidingAdd).registry = exRegistry ∧
    (addCmd exRegistry exCollidingAdd).jobs = [] ∧
    (addCmd exRegistry exCollidingAdd).committed = false ∧
    (addCmd exRegistry exCollidingAdd).result = CmdResult.warning :=
  ⟨by decide,
   (add_existing_name_no_change exRegistry exCollidingAdd (by decide)).1,
   (add_existing_name_no_change exRegistry exCollidingAdd (by decide)).2.1,
   (add_existing_name_no_change exRegistry exCollidingAdd (by decide)).2.2.1,
   (add_existing_name_no_change exRegistry exCollidingAdd (by decide)).2.2.2 _ rfl⟩

/-- Unpacking the draw-validity flag. -/
theorem validDraw_spec (w : List ℚ) (d : Draw) (h : validDraw w d = true) :
    (∀ x ∈ w, 0 ≤ x) ∧ w.sum = 1 ∧
    d.i0 < w.length ∧ d.i1 < w.length ∧ d.i2 < w.length ∧
    d.i0 ≠ d.i1 ∧ d.i0 ≠ d.i2 ∧ d.i1 ≠ d.i2 ∧
    0 < w.getD d.i0 0 ∧ 0 < w.getD d.i1 0 ∧ 0 < w.getD d.i2 0 := by
  unfold validDraw at h
  simp only [Bool.and_eq_true, List.all_eq_true, decide_eq_true_eq, bne_iff_ne, ne_eq] at h
  tauto

/-- Shape of a successful `takes_minutes` call: either the degenerate
uniform pick or the weighted 3-element draw with decay. -/
theorem takes_minutes_cases (m : Meeting) (d : Draw) (users : List String) (w' : List ℚ)
    (h : m.takes_minutes d = some (users, w')) :
    (m.participants.length < 3 ∧ d.i0 < m.participants.length ∧
      users = List.replicate 3 ((keys m.participants).getD d.i0 "") ∧ w' = m.weight) ∨
    (3 ≤ m.participants.length ∧ m.weight.length = m.participants.length ∧
      validDraw m.weight d = true ∧
      users = [(keys m.participants).getD d.i0 "", (keys m.participants).getD d.i1 "",
               (keys m.participants).getD d.i2 ""] ∧
      w' = decayWeights (keys m.participants) m.weight
             ((keys m.participants).getD d.i0 "") ((keys m.participants).getD d.i1 "")) := by
  unfold Meeting.takes_minutes at h
  by_cases hlt : m.participants.length < 3
  · rw [if_pos hlt] at h
    by_cases hi : d.i0 < m.participants.length
    · rw [if_pos hi] at h
      injection h with h
      rw [Prod.ext_iff] at h
      exact Or.inl ⟨hlt, hi, h.1.symm, h.2.symm⟩
    · rw [if_neg hi] at h
      cases h
  · rw [if_neg hlt] at h
    by_cases hg : m.weight.length = m.participants.length ∧ validDraw m.weight d = true
    · rw [if_pos hg] at h
      injection h with h
      rw [Prod.ext_iff] at h
      exact Or.inr ⟨by omega, hg.1, hg.2, h.1.symm, h.2.symm⟩
    · rw [if_neg hg] at h
      cases h

/-- Concrete evaluation of a selection on the example meeting, draw
`(0, 1, 2)`: weights `1/2, 1/4, 1/4` decay to `1/20, 1/8, 1/4` and
renormalise to `2/17, 5/17, 10/17`. -/
theorem exMeeting_takes_minutes_eval :
    exMeeting.takes_minutes ⟨0, 1, 2⟩ =
      some (["A", "B", "C"], [2/17, 5/17, 10/17]) := by
  norm_num [Meeting.takes_minutes, validDraw, decayWeights, keys, exMeeting,
    List.indexOf, List.findIdx, List.findIdx.go]
  simp
  norm_num

/-- C2: with at least 3 required participants a successful selection returns
3 pairwise-distinct participants, each holding nonzero weight at selection
time; with fewer it returns one participant three times and leaves the
weights untouched. -/
theorem takes_minutes_distinct_nonzero (m : Meeting) (d : Draw) (users : List String)
    (w' : List ℚ) (hnd : (keys m.participants).Nodup) :
    (3 ≤ m.participants.length → m.takes_minutes d = some (users, w') →
      users.length = 3 ∧ users.Nodup ∧
      ∀ u ∈ users, ∃ i, i < m.participants.length ∧
        (keys m.participants).getD i "" = u ∧ 0 < m.weight.getD i 0) ∧
    (m.participants.length < 3 → m.takes_minutes d = some (users, w') →
      (∃ u, u ∈ keys m.participants ∧ users = List.replicate 3 u) ∧ w' = m.weight) := by
  have hklen : (keys m.participants).length = m.participants.length := by simp [keys]
  constructor
  · intro h3 h
    rcases takes_minutes_cases m d users w' h with ⟨hlt, -⟩ | ⟨-, hlen, hvd, husers, -⟩
    · omega
    · obtain ⟨-, -, hi0, hi1, hi2, h01, h02, h12, hp0, hp1, hp2⟩ := validDraw_spec _ _ hvd
      rw [hlen] at hi0 hi1 hi2
      have key_inj : ∀ {i j : Nat}, i < m.participants.length → j < m.participants.length →
          (keys m.participants).getD i "" = (keys m.participants).getD j "" → i = j := by
        intro i j hi hj hij
        rw [List.getD_eq_getElem _ _ (hklen ▸ hi), List.getD_eq_getElem _ _ (hklen ▸ hj)] at hij
        exact (List.Nodup.getElem_inj_iff hnd).mp hij
      subst husers
      refine ⟨rfl, ?_, ?_⟩
      · refine List.nodup_cons.mpr ⟨?_, List.nodup_cons.mpr ⟨?_, List.nodup_singleton _⟩⟩
        · intro hmem
          rcases List.mem_cons.mp hmem with he | hmem
          · exact h01 (key_inj hi0 hi1 he)
          · rcases List.mem_singleton.mp hmem with he
            exact h02 (key_inj hi0 hi2 he)
        · intro hmem
          rcases List.mem_singleton.mp hmem with he
          exact h12 (key_inj hi1 hi2 he)
      · intro u hu
        rcases List.mem_cons.mp hu with rfl | hu
        · exact ⟨d.i0, hi0, rfl, hp0⟩
        rcases List.mem_cons.mp hu with rfl | hu
        · exact ⟨d.i1, hi1, rfl, hp1⟩
        rcases List.mem_singleton.mp hu with rfl
        exact ⟨d.i2, hi2, rfl, hp2⟩
  · intro hlt h
    rcases takes_minutes_cases m d users w' h with ⟨-, hi, husers, hw⟩ | ⟨h3, -⟩
    · refine ⟨⟨(keys m.participants).getD d.i0 "", ?_, husers⟩, hw⟩
      rw [List.getD_eq_getElem _ _ (hklen ▸ hi)]
      exact List.getElem_mem _
    · omega

/-- Witness for C2 on the example meeting with draw `(0, 1, 2)`. -/
theorem takes_minutes_distinct_nonzero_witness :
    (keys exMeeting.participants).Nodup ∧ 3 ≤ exMeeting.participants.length ∧
    exMeeting.takes_minutes ⟨0, 1, 2⟩ = some (["A", "B", "C"], [2/17, 5/17, 10/17]) ∧
    (["A", "B", "C"].length = 3 ∧ (["A", "B", "C"] : List String).Nodup ∧
      ∀ u ∈ ["A", "B", "C"], ∃ i, i < exMeeting.participants.length ∧
        (keys exMeeting.participants).getD i "" = u ∧ 0 < exMeeting.weight.getD i 0) :=
  ⟨by decide, by decide, exMeeting_takes_minutes_eval,
   (takes_minutes_distinct_nonzero exMeeting ⟨0, 1, 2⟩ ["A", "B", "C"]
      [2/17, 5/17, 10/17] (by decide)).1 (by decide) exMeeting_takes_minutes_eval⟩

/-- C3: after a weighted selection, the new weight vector is the old one with
the primary's entry divided by 10 and the first backup's divided by 2, others
unchanged, renormalised to sum exactly 1, with one entry per required
participant. -/
theorem post_selection_weights (m : Meeting) (d : Draw) (users : List String)
    (w' : List ℚ) (hnd : (keys m.participants).Nodup)
    (h3 : 3 ≤ m.participants.length)
    (h : m.takes_minutes d = some (users, w')) :
    ∃ i0 i1, i0 < m.participants.length ∧ i1 < m.participants.length ∧ i0 ≠ i1 ∧
      (keys m.participants).getD i0 "" = users.getD 0 "" ∧
      (keys m.participants).getD i1 "" = users.getD 1 "" ∧
      0 < (decayedVector m.weight i0 i1).sum ∧
      w' = (decayedVector m.weight i0 i1).map (· / (decayedVector m.weight i0 i1).sum) ∧
      w'.sum = 1 ∧ w'.length = m.participants.length := by
  have hklen : (keys m.participants).length = m.participants.length := by simp [keys]
  rcases takes_minutes_cases m d users w' h with ⟨hlt, -⟩ | ⟨-, hlen, hvd, husers, hw'⟩
  · omega
  · obtain ⟨hnn, -, hi0, hi1, -, h01, -, -, hp0, hp1, -⟩ := validDraw_spec _ _ hvd
    have hi0p : d.i0 < m.participants.length := hlen ▸ hi0
    have hi1p : d.i1 < m.participants.length := hlen ▸ hi1
    have hdecay : decayWeights (keys m.participants) m.weight
        ((keys m.participants).getD d.i0 "") ((keys m.participants).getD d.i1 "") =
        (decayedVector m.weight d.i0 d.i1).map (· / (decayedVector m.weight d.i0 d.i1).sum) := by
      have hv : (m.weight.set d.i0 (m.weight.getD d.i0 0 / 10)).getD d.i1 0 =
          m.weight.getD d.i1 0 := by
        rw [List.getD_eq_getElem _ _ (by rw [List.length_set]; exact hi1),
          List.getD_eq_getElem _ _ hi1, List.getElem_set]
        simp [h01]
      have hb0 : d.i0 < (keys m.participants).length := by rw [hklen]; exact hi0p
      have hb1 : d.i1 < (keys m.participants).length := by rw [hklen]; exact hi1p
      have hidx0 : (keys m.participants).indexOf ((keys m.participants).getD d.i0 "") = d.i0 := by
        rw [List.getD_eq_getElem _ _ hb0]
        exact List.indexOf_getElem hnd d.i0 hb0
      have hidx1 : (keys m.participants).indexOf ((keys m.participants).getD d.i1 "") = d.i1 := by
        rw [List.getD_eq_getElem _ _ hb1]
        exact List.indexOf_getElem hnd d.i1 hb1
      simp only [decayWeights, decayedVector, hidx0, hidx1, hv]
    have hnn' : ∀ x ∈ decayedVector m.weight d.i0 d.i1, 0 ≤ x := by
      intro x hx
      rcases List.mem_or_eq_of_mem_set hx with hx1 | rfl
      · rcases List.mem_or_eq_of_mem_set hx1 with hx2 | rfl
        · exact hnn x hx2
        · exact div_nonneg (le_of_lt hp0) (by norm_num)
      · exact div_nonneg (le_of_lt hp1) (by norm_num)
    have hi1s : d.i1 < (decayedVector m.weight d.i0 d.i1).length := by
      unfold decayedVector
      rw [List.length_set, List.length_set]
      exact hi1
    have hpos : 0 < (decayedVector m.weight d.i0 d.i1)[d.i1] := by
      unfold decayedVector
      rw [List.getElem_set]
      simp only [if_pos rfl]
      exact div_pos hp1 (by norm_num)
    have hsum : 0 < (decayedVector m.weight d.i0 d.i1).sum :=
      lt_of_lt_of_le hpos (List.single_le_sum hnn' _ (List.getElem_mem hi1s))
    refine ⟨d.i0, d.i1, hi0p, hi1p, h01, by simp [husers], by simp [husers], hsum, ?_, ?_, ?_⟩
    · rw [hw', hdecay]
    · rw [hw', hdecay, sum_map_div, div_self (ne_of_gt hsum)]
    · rw [hw', hdecay, List.length_map]
      unfold decayedVector
      rw [List.length_set, List.length_set, hlen]

/-- Witness for C3 on the example meeting with draw `(0, 1, 2)`. -/
theorem post_selection_weights_witness :
    (keys exMeeting.participants).Nodup ∧ 3 ≤ exMeeting.participants.length ∧
    exMeeting.takes_minutes ⟨0, 1, 2⟩ = some (["A", "B", "C"], [2/17, 5/17, 10/17]) ∧
    (∃ i0 i1, i0 < exMeeting.participants.length ∧ i1 < exMeeting.participants.length ∧
      i0 ≠ i1 ∧
      (keys exMeeting.participants).getD i0 "" = (["A", "B", "C"] : List String).getD 0 "" ∧
      (keys exMeeting.participants).getD i1 "" = (["A", "B", "C"] : List String).getD 1 "" ∧
      0 < (decayedVector exMeeting.weight i0 i1).sum ∧
      [2/17, 5/17, 10/17] =
        (decayedVector exMeeting.weight i0 i1).map
          (· / (decayedVector exMeeting.weight i0 i1).sum) ∧
      ([2/17, 5/17, 10/17] : List ℚ).sum = 1 ∧
      ([2/17, 5/17, 10/17] : List ℚ).length = exMeeting.participants.length) :=
  ⟨by decide, by decide, exMeeting_takes_minutes_eval,
   post_selection_weights exMeeting ⟨0, 1, 2⟩ ["A", "B", "C"] [2/17, 5/17, 10/17]
     (by decide) (by decide) exMeeting_takes_minutes_eval⟩

/-- A successful lookup yields a stored entry. -/
theorem lookup_mem (R : Registry) (name : String) (m : Meeting)
    (h : lookup R name = some m) : (name, m) ∈ R := by
  induction R with
  | nil => cases h
  | cons p rest ih =>
      obtain ⟨k, mm⟩ := p
      unfold lookup at h
      by_cases hk : (k == name) = true
      · rw [if_pos hk] at h
        cases h
        have : k = name := eq_of_beq hk
        subst this
        exact List.mem_cons_self _ _
      · rw [if_neg hk] at h
        exact List.mem_cons_of_mem _ (ih h)

/-- Every entry after an in-place update is the new entry or an old one. -/
theorem mem_setMeeting (R : Registry) (name : String) (m' : Meeting) (q : String × Meeting)
    (h : q ∈ setMeeting R name m') : q = (name, m') ∨ q ∈ R := by
  unfold setMeeting at h
  rw [List.mem_map] at h
  obtain ⟨p, hp, hq⟩ := h
  by_cases hk : (p.1 == name) = true
  · rw [if_pos hk] at hq
    exact Or.inl hq.symm
  · rw [if_neg hk] at hq
    exact Or.inr (hq ▸ hp)

/-- A command-surface `add` seeds the weight uniformly, one entry per
required participant. -/
theorem ofArgs_weight_length_of_none (a : MeetingArgs) (m : Meeting) (hw : a.weight = none)
    (h : Meeting.ofArgs a = some m) : m.weight.length = m.participants.length := by
  unfold Meeting.ofArgs at h
  rw [hw] at h
  by_cases h0 : a.participants.length = 0
  · simp [h0] at h
  · simp only [h0, if_false] at h
    cases h
    simp

/-- The decayed weight vector keeps the invariant length. -/
theorem takes_minutes_weight_length (m : Meeting) (d : Draw) (users : List String)
    (w' : List ℚ) (h : m.takes_minutes d = some (users, w'))
    (hinv : m.weight.length = m.participants.length) :
    w'.length = m.participants.length := by
  rcases takes_minutes_cases m d users w' h with ⟨-, -, -, hw⟩ | ⟨-, hlen, -, -, hw⟩
  · rw [hw]; exact hinv
  · rw [hw]
    simp only [decayWeights, List.length_map, List.length_set]
    exact hlen

/-- `add_participant` keeps the invariant on the mutated meeting. -/
theorem addParticipantCore_weight_length (m m' : Meeting) (directory : List (String × Nat))
    (users : List String) (optional : Bool)
    (hinv : m.weight.length = m.participants.length)
    (h : m.addParticipantCore directory users optional = some m') :
    m'.weight.length = m'.participants.length := by
  simp only [Meeting.addParticipantCore] at h
  split at h
  · cases h; exact hinv
  · split at h
    · split at h
      · cases h
      · split at h
        · cases h
        · split at h
          · cases h
            assumption
          · cases h
    · cases h; exact hinv

/-- `remove_participant` keeps the invariant on the mutated meeting. -/
theorem removeParticipantCore_weight_length (m m' : Meeting) (users : List String)
    (h : m.removeParticipantCore users = some m') :
    m'.weight.length = m'.participants.length := by
  simp only [Meeting.removeParticipantCore] at h
  split at h
  · cases h
  · split at h
    · cases h
      assumption
    · cases h

/-- Registry shape after an `add` command. -/
theorem addCmd_registry_cases (R : Registry) (a : AddArgs) :
    (addCmd R a).registry = R ∨
    ∃ m, Meeting.ofArgs a.toMeetingArgs = some m ∧
      (addCmd R a).registry = R ++ [(m.name, m)] := by
  unfold addCmd
  cases hof : Meeting.ofArgs a.toMeetingArgs with
  | none => exact Or.inl rfl
  | some m =>
      dsimp only
      by_cases hc : ((keys R).contains m.name) = true
      · rw [if_pos hc]
        exact Or.inl rfl
      · rw [if_neg hc]
        cases ht : m.trigger with
        | none => exact Or.inl rfl
        | some trigs => exact Or.inr ⟨m, rfl, rfl⟩

/-- Registry shape after an appointment callback. -/
theorem sendAppointmentCb_registry_cases (R : Registry) (m : Meeting) (wi now : Int)
    (holiday : Bool) (d : Draw) :
    (sendAppointmentCb R m wi now holiday d).registry = R ∨
    ∃ users w', m.takes_minutes d = some (users, w') ∧
      (sendAppointmentCb R m wi now holiday d).registry =
        setMeeting R m.name { m with weight := w' } := by
  unfold sendAppointmentCb
  by_cases hs : skip m wi now holiday = true
  · rw [if_pos hs]
    exact Or.inl rfl
  · rw [if_neg hs]
    unfold Meeting.appointment
    cases ht : m.takes_minutes d with
    | none => exact Or.inl rfl
    | some uw =>
        obtain ⟨users, w⟩ := uw
        exact Or.inr ⟨users, w, rfl, rfl⟩

/-- C6: every mutating registry operation that completes successfully — `add`,
`add_participant` (required or optional), `remove_participant`, and the weight
decay performed by an appointment firing — preserves
`len(weight) == len(participants)` for every stored meeting. -/
theorem mutation_preserves_weight_invariant (R : Registry) (op : Op) (R' : Registry)
    (hinv : WeightInvariant R) (happ : applyOp R op = some R') : WeightInvariant R' := by
  cases op with
  | add a =>
      injection happ with happ
      subst happ
      rcases addCmd_registry_cases R a with hr | ⟨m, hof, hr⟩
      · rw [hr]; exact hinv
      · rw [hr]
        intro p hp
        rcases List.mem_append.mp hp with hp | hp
        · exact hinv p hp
        · rcases List.mem_singleton.mp hp with rfl
          exact ofArgs_weight_length_of_none _ m rfl hof
  | addPart directory name users optional =>
      simp only [applyOp, addParticipantCmd] at happ
      cases hl : lookup R name with
      | none => rw [hl] at happ; cases happ; exact hinv
      | some m =>
          rw [hl] at happ
          dsimp only at happ
          cases hc : m.addParticipantCore directory users optional with
          | none => rw [hc] at happ; cases happ
          | some m' =>
              rw [hc] at happ
              cases happ
              intro p hp
              rcases mem_setMeeting R name m' p hp with rfl | hp
              · exact addParticipantCore_weight_length m m' directory users optional
                  (hinv _ (lookup_mem R name m hl)) hc
              · exact hinv p hp
  | removePart name users =>
      simp only [applyOp, removeParticipantCmd] at happ
      cases hl : lookup R name with
      | none => rw [hl] at happ; cases happ; exact hinv
      | some m =>
          rw [hl] at happ
          dsimp only at happ
          cases hc : m.removeParticipantCore users with
          | none => rw [hc] at happ; cases happ
          | some m' =>
              rw [hc] at happ
              cases happ
              intro p hp
              rcases mem_setMeeting R name m' p hp with rfl | hp
              · exact removeParticipantCore_weight_length m m' users hc
              · exact hinv p hp
  | fireAppointment name wi now holiday d =>
      simp only [applyOp] at happ
      cases hl : lookup R name with
      | none => rw [hl] at happ; cases happ; exact hinv
      | some m =>
          rw [hl] at happ
          dsimp only at happ
          injection happ with happ
          subst happ
          rcases sendAppointmentCb_registry_cases R m wi now holiday d with hr | ⟨users, w', ht, hr⟩
          · rw [hr]; exact hinv
          · rw [hr]
            intro p hp
            rcases mem_setMeeting R m.name _ p hp with rfl | hp
            · exact takes_minutes_weight_length m d users w' ht
                (hinv _ (lookup_mem R name m hl))
            · exact hinv p hp

/-- Witness for C6: removing participant `A` from the example meeting keeps
one weight entry per remaining participant. -/
theorem mutation_preserves_weight_invariant_witness :
    WeightInvariant exRegistry ∧
    applyOp exRegistry (Op.removePart "Sync" ["A"]) = some [("Sync", exMeetingShrunk)] ∧
    WeightInvariant [("Sync", exMeetingShrunk)] := by
  have happ : applyOp exRegistry (Op.removePart "Sync" ["A"]) =
      some [("Sync", exMeetingShrunk)] := by
    norm_num [applyOp, removeParticipantCmd, lookup, exRegistry, exMeeting, exMeetingShrunk,
      Meeting.removeParticipantCore, removeOne, keys, setMeeting, List.indexOf,
      List.findIdx, List.findIdx.go]
  exact ⟨by decide, happ,
    mutation_preserves_weight_invariant exRegistry (Op.removePart "Sync" ["A"]) _
      (by decide) happ⟩

/-- Keys commute with positional removal. -/
theorem keys_eraseIdx {a : Type} (l : List (String × a)) (i : Nat) :
    keys (l.eraseIdx i) = (keys l).eraseIdx i := by
  unfold keys
  induction l generalizing i with
  | nil => simp
  | cons p rest ih =>
      cases i with
      | zero => simp
      | succ j => simp [ih j]

/-- Looking up after an in-place update finds the new meeting. -/
theorem lookup_setMeeting (R : Registry) (name : String) (m m' : Meeting)
    (h : lookup R name = some m) : lookup (setMeeting R name m') name = some m' := by
  induction R with
  | nil => cases h
  | cons p rest ih =>
      obtain ⟨k, mm⟩ := p
      by_cases hk : (k == name) = true
      · have hstep : setMeeting ((k, mm) :: rest) name m' = (name, m') :: setMeeting rest name m' := by
          unfold setMeeting
          rw [List.map_cons]
          congr 1
          exact if_pos hk
        rw [hstep]
        unfold lookup
        simp
      · have hstep : setMeeting ((k, mm) :: rest) name m' = (k, mm) :: setMeeting rest name m' := by
          unfold setMeeting
          rw [List.map_cons]
          congr 1
          exact if_neg hk
        rw [hstep]
        unfold lookup
        rw [if_neg hk]
        apply ih
        unfold lookup at h
        rw [if_neg hk] at h
        exact h

/-- Folding the removal step over a user list covering every key empties both
parallel lists. -/
theorem removeOne_fold_empties (users : List String) :
    ∀ (parts : List (String × Nat)) (w : List ℚ),
      (keys parts).Nodup → w.length = parts.length →
      (∀ k ∈ keys parts, k ∈ users) →
      users.foldl removeOne (parts, w) = ([], []) := by
  induction users with
  | nil =>
      intro parts w hnd hlen hsub
      have hempty : parts = [] := by
        cases parts with
        | nil => rfl
        | cons p r => exact absurd (hsub p.1 (by simp [keys])) (by simp)
      subst hempty
      have hw : w = [] := List.length_eq_zero.mp hlen
      subst hw
      rfl
  | cons u rest ih =>
      intro parts w hnd hlen hsub
      rw [List.foldl_cons]
      by_cases hu : ((keys parts).contains u) = true
      · have humem : u ∈ keys parts := List.elem_iff.mp hu
        have hidx : (keys parts).indexOf u < (keys parts).length :=
          List.indexOf_lt_length.mpr humem
        have hklen : (keys parts).length = parts.length := by simp [keys]
        have hstep : removeOne (parts, w) u =
            (parts.eraseIdx ((keys parts).indexOf u), w.eraseIdx ((keys parts).indexOf u)) := by
          simp only [removeOne, hu, if_true]
        rw [hstep]
        have hip : (keys parts).indexOf u < parts.length := by rw [← hklen]; exact hidx
        have hiw : (keys parts).indexOf u < w.length := by omega
        apply ih
        · rw [keys_eraseIdx]
          exact hnd.sublist (List.eraseIdx_sublist _ _)
        · rw [List.length_eraseIdx, List.length_eraseIdx, if_pos hip, if_pos hiw]
          omega
        · intro k hk
          rw [keys_eraseIdx] at hk
          have hk' : k ∈ (keys parts).erase u := by
            rw [← List.eraseIdx_indexOf_eq_erase]
            exact hk
          rcases (List.Nodup.mem_erase_iff hnd).mp hk' with ⟨hku, hkp⟩
          rcases List.mem_cons.mp (hsub k hkp) with h | h
          · exact absurd h hku
          · exact h
      · have hstep : removeOne (parts, w) u = (parts, w) := by
          unfold removeOne
          rw [if_neg (by simpa using hu)]
        rw [hstep]
        apply ih parts w hnd hlen
        intro k hk
        rcases List.mem_cons.mp (hsub k hk) with rfl | h
        · exact absurd (List.elem_iff.mpr hk) (by simpa using hu)
        · exact h

/-- `remove_participant` with a user list covering every required participant
succeeds and leaves the meeting with no participants and no weights. -/
theorem removeParticipantCore_all (m : Meeting) (users : List String)
    (hnd : (keys m.participants).Nodup) (hlen : m.weight.length = m.participants.length)
    (hsub : ∀ k ∈ keys m.participants, k ∈ users) :
    m.removeParticipantCore users = some { m with participants := [], weight := [] } := by
  simp only [Meeting.removeParticipantCore]
  rw [removeOne_fold_empties users m.participants m.weight hnd hlen hsub]
  simp

/-- C10: the selection is undefined on an empty required-participant list
(`np.random.choice` raises), and `remove_participant` happily removes the
last required participant, so a meeting whose appointment firing hits this
error is reachable through the public command interface. -/
theorem empty_participants_error_reachable :
    (∀ (m : Meeting) (d : Draw), m.participants = [] → m.takes_minutes d = none) ∧
    (∀ (R : Registry) (name : String) (m : Meeting) (users : List String) (d : Draw),
      lookup R name = some m → (keys m.participants).Nodup →
      m.weight.length = m.participants.length →
      (∀ k ∈ keys m.participants, k ∈ users) →
      ∃ R', removeParticipantCmd R name users = some R' ∧
        lookup R' name = some { m with participants := [], weight := [] } ∧
        Meeting.takes_minutes { m with participants := [], weight := [] } d = none) := by
  have hempty : ∀ (m : Meeting) (d : Draw), m.participants = [] → m.takes_minutes d = none := by
    intro m d hp
    simp [Meeting.takes_minutes, hp]
  refine ⟨hempty, ?_⟩
  intro R name m users d hl hnd hlen hsub
  have hcore := removeParticipantCore_all m users hnd hlen hsub
  refine ⟨setMeeting R name { m with participants := [], weight := [] }, ?_, ?_, ?_⟩
  · unfold removeParticipantCmd
    rw [hl]
    dsimp only
    rw [hcore]
  · exact lookup_setMeeting R name m _ hl
  · exact hempty _ d rfl

/-- Witness for C10: removing the only participant of a one-member meeting
succeeds and leaves a meeting whose selection raises. -/
theorem empty_participants_error_reachable_witness :
    lookup [("Solo", exSolo)] "Solo" = some exSolo ∧
    (keys exSolo.participants).Nodup ∧
    exSolo.weight.length = exSolo.participants.length ∧
    (∀ k ∈ keys exSolo.participants, k ∈ ["A"]) ∧
    ∃ R', removeParticipantCmd [("Solo", exSolo)] "Solo" ["A"] = some R' ∧
      lookup R' "Solo" = some { exSolo with participants := [], weight := [] } ∧
      Meeting.takes_minutes { exSolo with participants := [], weight := [] } ⟨0, 0, 0⟩ = none :=
  ⟨rfl, by decide, by decide, by decide,
   empty_participants_error_reachable.2 [("Solo", exSolo)] "Solo" exSolo ["A"] ⟨0, 0, 0⟩
     rfl (by decide) (by decide) (by decide)⟩

/-- The reminder offset succeeds exactly on times of day at least 00:05. -/
theorem time_delta_minus5 (t : Nat) (h5 : 5 ≤ t) (hday : t < 1440) :
    time_delta t (-5) = some (t - 5) := by
  unfold time_delta
  rw [if_neg (by omega)]
  congr 1
  rw [Int.emod_eq_of_lt (by omega) (by omega)]
  omega

/-- The reminder offset underflows `datetime.min` below 00:05. -/
theorem time_delta_minus5_underflow (t : Nat) (h5 : t < 5) :
    time_delta t (-5) = none := by
  unfold time_delta
  rw [if_pos (by omega)]

/-- On schedules with in-range fields (`hour ≤ 23`, `minute ≤ 59`) whose
times of day are at least 00:05, the planner agrees with the specification
plan. -/
theorem planSchedules_eq_spec (name : String) (sd : PyDateTime) (ed : Option PyDateTime)
    (l : List (Int × String × Nat × Nat)) (n : Nat)
    (hvalid : ∀ s ∈ l, s.2.2.1 ≤ 23 ∧ s.2.2.2 ≤ 59 ∧ 5 ≤ s.2.2.1 * 60 + s.2.2.2) :
    planSchedules name sd ed n l = some (specSchedulePlan name sd ed n l) := by
  induction l generalizing n with
  | nil => rfl
  | cons s rest ih =>
      obtain ⟨wi, days, hour, minute⟩ := s
      have hs : hour ≤ 23 ∧ minute ≤ 59 ∧ 5 ≤ hour * 60 + minute := by
        simpa using hvalid _ (List.mem_cons_self _ _)
      have hpt : pyTime hour minute = some (hour * 60 + minute) := by
        unfold pyTime
        rw [if_pos ⟨hs.1, hs.2.1⟩]
      have htd : time_delta (hour * 60 + minute) (-5) = some (hour * 60 + minute - 5) :=
        time_delta_minus5 _ hs.2.2 (by omega)
      have hrest := ih (n + 1) (fun s hsr => hvalid s (List.mem_cons_of_mem _ hsr))
      simp [planSchedules, hpt, htd, hrest, specSchedulePlan]

/-- A schedule earlier than 00:05 makes the planner raise (its fields are in
range, so `time()` succeeds and the `-5` minute shift underflows). -/
theorem planSchedules_none_of_underflow (name : String) (sd : PyDateTime)
    (ed : Option PyDateTime) (l : List (Int × String × Nat × Nat)) (n : Nat)
    (h : ∃ s ∈ l, s.2.2.1 * 60 + s.2.2.2 < 5) :
    planSchedules name sd ed n l = none := by
  induction l generalizing n with
  | nil =>
      rcases h with ⟨s, hs, -⟩
      cases hs
  | cons s rest ih =>
      rcases h with ⟨t, ht, htv⟩
      obtain ⟨wi, days, hour, minute⟩ := s
      rcases List.mem_cons.mp ht with rfl | htr
      · have htv' : hour * 60 + minute < 5 := by simpa using htv
        have hpt : pyTime hour minute = some (hour * 60 + minute) := by
          unfold pyTime
          rw [if_pos (by omega)]
        have htd : time_delta (hour * 60 + minute) (-5) = none :=
          time_delta_minus5_underflow _ htv'
        simp [planSchedules, hpt, htd]
      · cases hpt : pyTime hour minute with
        | none => simp [planSchedules, hpt]
        | some t0 =>
            cases htd : time_delta t0 (-5) with
            | none => simp [planSchedules, hpt, htd]
            | some rt => simp [planSchedules, hpt, htd, ih (n + 1) ⟨t, htr, htv⟩]

/-- A schedule with an out-of-range hour or minute makes the planner raise
`ValueError` inside `time()`. -/
theorem planSchedules_none_of_invalid (name : String) (sd : PyDateTime)
    (ed : Option PyDateTime) (l : List (Int × String × Nat × Nat)) (n : Nat)
    (h : ∃ s ∈ l, ¬ (s.2.2.1 ≤ 23 ∧ s.2.2.2 ≤ 59)) :
    planSchedules name sd ed n l = none := by
  induction l generalizing n with
  | nil =>
      rcases h with ⟨s, hs, -⟩
      cases hs
  | cons s rest ih =>
      rcases h with ⟨t, ht, htv⟩
      obtain ⟨wi, days, hour, minute⟩ := s
      rcases List.mem_cons.mp ht with rfl | htr
      · have hpt : pyTime hour minute = none := by
          unfold pyTime
          rw [if_neg (by simpa using htv)]
        simp [planSchedules, hpt]
      · cases hpt : pyTime hour minute with
        | none => simp [planSchedules, hpt]
        | some t0 =>
            cases htd : time_delta t0 (-5) with
            | none => simp [planSchedules, hpt, htd]
            | some rt => simp [planSchedules, hpt, htd, ih (n + 1) ⟨t, htr, htv⟩]

/-- Counterexample to C7: for a schedule at `00:00` the trigger planner does
not produce the appointment/reminder pair the claim promises — it raises
`OverflowError` computing the reminder time and yields no triggers at all. -/
theorem trigger_plan_counterexample :
    exMidnight.schedules ≠ [] ∧ exMidnight.trigger = none := by
  exact ⟨by decide, rfl⟩

/-- C7 amended: with no schedules the planner yields exactly the one-shot
appointment at `start` and reminder at `start - 5min`; with schedules whose
fields are in range (`hour ≤ 23`, `minute ≤ 59`) and whose times of day are
at least 00:05 it yields, per schedule tuple, the appointment cron trigger
and the paired reminder cron trigger 5 minutes earlier (same weekday set and
`[start, end]` bounds, carrying the week interval and
name/index/reminder-derived identifiers); a schedule with a time of day
before 00:05 makes the planner raise `OverflowError`, and one with an
out-of-range hour or minute makes it raise `ValueError` inside `time()` —
either way no triggers are produced. -/
theorem trigger_plan_amended (m : Meeting) :
    (m.schedules = [] →
      m.trigger = some [(m.name, TriggerSpec.dateT m.start.timestamp, 1),
        (m.name ++ ".reminder", TriggerSpec.dateT (m.start.timestamp - 300), 1)]) ∧
    (m.schedules ≠ [] →
      (∀ s ∈ m.schedules, s.2.2.1 ≤ 23 ∧ s.2.2.2 ≤ 59 ∧ 5 ≤ s.2.2.1 * 60 + s.2.2.2) →
      m.trigger = some (specSchedulePlan m.name m.start m.end_ 0 m.schedules)) ∧
    ((∃ s ∈ m.schedules, s.2.2.1 * 60 + s.2.2.2 < 5) → m.trigger = none) ∧
    ((∃ s ∈ m.schedules, ¬ (s.2.2.1 ≤ 23 ∧ s.2.2.2 ≤ 59)) → m.trigger = none) := by
  refine ⟨?_, ?_, ?_, ?_⟩
  · intro he
    unfold Meeting.trigger
    rw [if_pos (by simp [he])]
  · intro hne hvalid
    unfold Meeting.trigger
    rw [if_neg (by simpa using hne)]
    exact planSchedules_eq_spec _ _ _ _ _ hvalid
  · intro hex
    have hne : m.schedules ≠ [] := by
      rcases hex with ⟨s, hs, -⟩
      intro he
      rw [he] at hs
      cases hs
    unfold Meeting.trigger
    rw [if_neg (by simpa using hne)]
    exact planSchedules_none_of_underflow _ _ _ _ _ hex
  · intro hex
    have hne : m.schedules ≠ [] := by
      rcases hex with ⟨s, hs, -⟩
      intro he
      rw [he] at hs
      cases hs
    unfold Meeting.trigger
    rw [if_neg (by simpa using hne)]
    exact planSchedules_none_of_invalid _ _ _ _ _ hex

/-- Witness for the amended C7 on the example meeting (one schedule,
Mondays 10:00): appointment cron at 10:00 and reminder cron at 09:55. -/
theorem trigger_plan_amended_witness :
    exMeeting.schedules ≠ [] ∧
    (∀ s ∈ exMeeting.schedules,
      s.2.2.1 ≤ 23 ∧ s.2.2.2 ≤ 59 ∧ 5 ≤ s.2.2.1 * 60 + s.2.2.2) ∧
    exMeeting.trigger =
      some (specSchedulePlan exMeeting.name exMeeting.start exMeeting.end_ 0
        exMeeting.schedules) :=
  ⟨by decide, by decide,
   (trigger_plan_amended exMeeting).2.1 (by decide) (by decide)⟩

/-- Every job id the planner generates for a recurring meeting extends the
meeting's name by a nonempty character suffix. -/
theorem planSchedules_ids (name : String) (sd : PyDateTime) (ed : Option PyDateTime)
    (l : List (Int × String × Nat × Nat)) (n : Nat) (tl : List (String × TriggerSpec × Int))
    (h : planSchedules name sd ed n l = some tl) :
    ∀ q ∈ tl, ∃ rest : List Char, q.1.data = name.data ++ rest ∧ rest ≠ [] := by
  induction l generalizing n tl with
  | nil =>
      cases h
      intro q hq
      cases hq
  | cons s rest ih =>
      obtain ⟨wi, days, hour, minute⟩ := s
      cases hpt : pyTime hour minute with
      | none =>
          rw [planSchedules, hpt] at h
          cases h
      | some t =>
        rw [planSchedules, hpt] at h
        simp only [Option.bind_eq_bind, Option.some_bind] at h
        cases htd : time_delta t (-5) with
        | none =>
            rw [htd] at h
            cases h
        | some rt =>
          rw [htd] at h
          simp only [Option.bind_eq_bind, Option.some_bind] at h
          cases hrec : planSchedules name sd ed (n + 1) rest with
          | none =>
              rw [hrec] at h
              cases h
          | some tail =>
              rw [hrec] at h
              simp only [Option.bind_eq_bind, Option.some_bind] at h
              cases h
              intro q hq
              have hdot : (".schedule-".data : List Char) ≠ [] := by decide
              rcases List.mem_cons.mp hq with rfl | hq
              · refine ⟨".schedule-".data ++ (toString n).data, ?_, ?_⟩
                · rw [String.data_append, String.data_append, List.append_assoc]
                · intro he
                  rw [List.append_eq_nil] at he
                  exact hdot he.1
              rcases List.mem_cons.mp hq with rfl | hq
              · refine ⟨".schedule-".data ++ (toString n).data ++ ".reminder".data, ?_, ?_⟩
                · simp [String.data_append, List.append_assoc]
                · intro he
                  rw [List.append_eq_nil, List.append_eq_nil] at he
                  exact hdot he.1.1
              · exact ih (n + 1) tail hrec q hq

/-- C1 amended: the prefix-matching cancellation used by `pause`
(`_remove_job`) cancels exactly the armed jobs whose id has the meeting's
name as a character prefix — a set that contains every job of that meeting,
but can also contain jobs of a different meeting whose name extends this
one's; `remove` instead calls `scheduler.remove_job` with the bare meeting
name, an id no job of a recurring meeting carries (so nothing of that
meeting's is cancelled and the lookup raises), and which for a one-shot
meeting names only the appointment job, leaving the reminder job armed. -/
theorem job_cancellation_amended (m : Meeting) (tl : List (String × TriggerSpec × Int))
    (S : List String) (h : m.trigger = some tl) :
    (∀ q ∈ tl, m.name.data <+: (q : String × TriggerSpec × Int).1.data) ∧
    (∀ j : String, j ∈ removeJobCancels m.name S ↔ j ∈ S ∧ m.name.data <+: j.data) ∧
    (m.schedules ≠ [] → m.name ∉ tl.map Prod.fst) ∧
    (m.schedules = [] → tl.map Prod.fst = [m.name, m.name ++ ".reminder"] ∧
      schedRemoveJob m.name (tl.map Prod.fst) = some [m.name ++ ".reminder"]) := by
  refine ⟨?_, ?_, ?_, ?_⟩
  · intro q hq
    by_cases he : m.schedules = []
    · unfold Meeting.trigger at h
      rw [if_pos (by simp [he])] at h
      cases h
      rcases List.mem_cons.mp hq with rfl | hq
      · exact List.prefix_rfl
      rcases List.mem_cons.mp hq with rfl | hq
      · rw [String.data_append]
        exact List.prefix_append _ _
      · cases hq
    · unfold Meeting.trigger at h
      rw [if_neg (by simpa using he)] at h
      obtain ⟨rest, hq1, -⟩ := planSchedules_ids m.name m.start m.end_ m.schedules 0 tl h q hq
      exact ⟨rest, hq1.symm⟩
  · intro j
    unfold removeJobCancels startswith
    rw [List.mem_filter]
    constructor
    · rintro ⟨hj, hp⟩
      exact ⟨hj, List.isPrefixOf_iff_prefix.mp hp⟩
    · rintro ⟨hj, hp⟩
      exact ⟨hj, List.isPrefixOf_iff_prefix.mpr hp⟩
  · intro hne hmem
    unfold Meeting.trigger at h
    rw [if_neg (by simpa using hne)] at h
    rw [List.mem_map] at hmem
    obtain ⟨q, hq, hqname⟩ := hmem
    obtain ⟨rest, hq1, hrest⟩ := planSchedules_ids m.name m.start m.end_ m.schedules 0 tl h q hq
    rw [hqname] at hq1
    have : rest = [] := by
      have hlen := congrArg List.length hq1
      rw [List.length_append] at hlen
      exact List.length_eq_zero.mp (by omega)
    exact hrest this
  · intro he
    unfold Meeting.trigger at h
    rw [if_pos (by simp [he])] at h
    cases h
    refine ⟨rfl, ?_⟩
    unfold schedRemoveJob
    rw [if_pos (by simp)]
    dsimp only [List.map]
    rw [List.erase_cons_head]

/-- Counterexample to C1: with recurring meeting `A`'s two jobs armed,
`remove` looks up the job with id exactly `A` — which does not exist — so it
cancels nothing of meeting `A`'s, raises, and leaves even the registry entry
in place; meanwhile the prefix match used by `pause` on meeting `A` also
cancels `AB.schedule-0`, a job belonging to the different meeting `AB`. -/
theorem job_cancellation_counterexample :
    (exRecA.trigger).map (fun tl => tl.map Prod.fst) =
      some ["A.schedule-0", "A.schedule-0.reminder"] ∧
    removeCmd [("A", exRecA)] ["A.schedule-0", "A.schedule-0.reminder"] "A" =
      ([("A", exRecA)], ["A.schedule-0", "A.schedule-0.reminder"], CmdResult.error) ∧
    removeJobCancels "A" ["AB.schedule-0"] = ["AB.schedule-0"] := by
  refine ⟨?_, ?_, ?_⟩
  · rfl
  · rfl
  · decide

/-- Witness for the amended C1 on the recurring example meeting `A` with a
foreign job `AB.schedule-0` armed. -/
theorem job_cancellation_amended_witness :
    exRecA.trigger = some (specSchedulePlan "A" exRecA.start exRecA.end_ 0 exRecA.schedules) ∧
    (∀ q ∈ specSchedulePlan "A" exRecA.start exRecA.end_ 0 exRecA.schedules,
      ("A" : String).data <+: (q : String × TriggerSpec × Int).1.data) ∧
    (∀ j : String, j ∈ removeJobCancels "A" ["A.schedule-0", "AB.schedule-0"] ↔
      j ∈ ["A.schedule-0", "AB.schedule-0"] ∧ ("A" : String).data <+: j.data) ∧
    (exRecA.schedules ≠ [] →
      "A" ∉ (specSchedulePlan "A" exRecA.start exRecA.end_ 0 exRecA.schedules).map Prod.fst) := by
  have ht : exRecA.trigger =
      some (specSchedulePlan "A" exRecA.start exRecA.end_ 0 exRecA.schedules) := rfl
  have hmain := job_cancellation_amended exRecA _ ["A.schedule-0", "AB.schedule-0"] ht
  exact ⟨ht, hmain.1, hmain.2.1, fun _ => hmain.2.2.1 (by decide)⟩

end Dana
